import Mathlib

/-!
Verification of the soil-analysis core: a shallow embedding of the
color-classification pipeline (`src/inference/color_utils.py`) and the
depth-calibration subsystem (`src/inference/depth_utils.py`).

Machine floats are modelled as exact rationals; `round(x, 1)` is modelled as
exact round-half-to-even on tenths; images are flattened lists of BGR pixels.
-/

set_option maxRecDepth 4000

/-- Round a rational to the nearest integer, ties to the even integer
(the rounding mode of the `round` builtin). -/
def pyRoundHalfEvenZ (q : ℚ) : ℤ :=
  let f : ℤ := ⌊q⌋
  if q < (f : ℚ) + 1/2 then f
  else if (f : ℚ) + 1/2 < q then f + 1
  else if f % 2 = 0 then f else f + 1

/-- `round(x, 1)`: round to one decimal place, ties to even. -/
def pyRound1 (q : ℚ) : ℚ := ((pyRoundHalfEvenZ (10 * q) : ℤ) : ℚ) / 10

/-- `int(x)` on a float: truncation toward zero. -/
def pyInt (q : ℚ) : ℤ := if 0 ≤ q then ⌊q⌋ else ⌈q⌉

/-- `estimate_depth` from `depth_utils.py`: convert a bounding box's vertical
pixel extent to a depth range in cm; a non-positive ratio is replaced by 10. -/
def estimate_depth (bounding_box : ℤ × ℤ × ℤ × ℤ) (pixel_cm_ratio : ℚ)
    (reference_top_cm : ℚ) : ℚ × ℚ :=
  let y0 := bounding_box.2.1
  let y1 := bounding_box.2.2.2
  let ratio := if pixel_cm_ratio ≤ 0 then 10 else pixel_cm_ratio
  (pyRound1 (reference_top_cm + (y0 : ℚ) / ratio),
   pyRound1 (reference_top_cm + (y1 : ℚ) / ratio))

/-- `calculate_layer_thickness` from `depth_utils.py`. -/
def calculate_layer_thickness (top_depth_cm bottom_depth_cm : ℚ) : ℚ :=
  pyRound1 |bottom_depth_cm - top_depth_cm|

/-- The literal zone-name table of `get_depth_zones`. -/
def defaultZoneNames : List String := ["Surface", "Shallow", "Medium", "Deep"]

/-- The string `"Zone {i+1}"` used by `get_depth_zones`. -/
def zoneLabel (i : ℕ) : String := "Zone " ++ toString (i + 1)

/-- `get_depth_zones` from `depth_utils.py`: equal-height partition of the
profile, names taken positionally from the default table unless it is
replaced (only when `n_zones > 4`) by generic labels. -/
def get_depth_zones (total_depth_cm : ℚ) (n_zones : ℕ) : List (String × ℚ × ℚ) :=
  let zone_height := total_depth_cm / (n_zones : ℚ)
  let zone_names := if 4 < n_zones then (List.range n_zones).map zoneLabel
                    else defaultZoneNames
  (List.range n_zones).map (fun i =>
    (zone_names.getD i (zoneLabel i),
     pyRound1 ((i : ℚ) * zone_height),
     pyRound1 (((i : ℚ) + 1) * zone_height)))

/-- The `DepthCalibrator` state: its current ratio and the list of reference
points `(pixel_y, depth_cm)` in insertion order. -/
structure DepthCalibrator where
  pixel_cm_ratio : ℚ
  reference_points : List (ℤ × ℚ)
deriving DecidableEq

/-- The sort key used by `_recalculate_ratio`: compare points by `pixel_y`. -/
def pixelLE (a b : ℤ × ℚ) : Prop := a.1 ≤ b.1

instance : DecidableRel pixelLE := fun a b => inferInstanceAs (Decidable (a.1 ≤ b.1))

instance : IsTotal (ℤ × ℚ) pixelLE := ⟨fun a b => le_total a.1 b.1⟩

instance : IsTrans (ℤ × ℚ) pixelLE := ⟨fun _ _ _ hab hbc => le_trans hab hbc⟩

/-- `sorted(self.reference_points, key=lambda x: x[0])`: a stable sort by
`pixel_y` (insertion sort is stable, like Python's sort). -/
def sortByPixel (l : List (ℤ × ℚ)) : List (ℤ × ℚ) := List.insertionSort pixelLE l

/-- The slope list built by `_recalculate_ratio`: for each consecutive pair of
the (sorted) points, `Δpixel / Δdepth`, skipping pairs with `Δdepth = 0`. -/
def slopes : List (ℤ × ℚ) → List ℚ
  | a :: b :: rest =>
      (if b.2 - a.2 ≠ 0 then [((b.1 - a.1 : ℤ) : ℚ) / (b.2 - a.2)] else [])
        ++ slopes (b :: rest)
  | _ => []

/-- `np.mean` over a list of rationals. -/
def listMean (l : List ℚ) : ℚ := l.sum / (l.length : ℚ)

/-- `DepthCalibrator._recalculate_ratio`. -/
def recalculateRatio (c : DepthCalibrator) : DepthCalibrator :=
  if c.reference_points.length < 2 then c
  else
    let rs := slopes (sortByPixel c.reference_points)
    if rs.isEmpty then c else { c with pixel_cm_ratio := listMean rs }

/-- `DepthCalibrator.add_reference_point`. -/
def addReferencePoint (c : DepthCalibrator) (pixel_y : ℤ) (depth_cm : ℚ) :
    DepthCalibrator :=
  let c2 := { c with reference_points := c.reference_points ++ [(pixel_y, depth_cm)] }
  if 2 ≤ c2.reference_points.length then recalculateRatio c2 else c2

/-- One `add_reference_point` call on an uncurried point. -/
def calibStep (c : DepthCalibrator) (pd : ℤ × ℚ) : DepthCalibrator :=
  addReferencePoint c pd.1 pd.2

/-- A fresh calibrator (default ratio `r0`) fed a whole list of reference
points in order. -/
def calibRun (r0 : ℚ) (pts : List (ℤ × ℚ)) : DepthCalibrator :=
  pts.foldl calibStep (DepthCalibrator.mk r0 [])

/-- `DepthCalibrator.get_depth_at_pixel`. -/
def getDepthAtPixel (c : DepthCalibrator) (pixel_y : ℤ) : ℚ :=
  match c.reference_points with
  | (rp, rd) :: _ => rd + ((pixel_y : ℚ) - (rp : ℚ)) / c.pixel_cm_ratio
  | [] => (pixel_y : ℚ) / c.pixel_cm_ratio

/-- `DepthCalibrator.get_calibration_info`, as the triple
`(pixel_cm_ratio, reference_points, cm_per_pixel)`. -/
def get_calibration_info (c : DepthCalibrator) : ℚ × List (ℤ × ℚ) × ℚ :=
  (c.pixel_cm_ratio, c.reference_points,
   if 0 < c.pixel_cm_ratio then 1 / c.pixel_cm_ratio else 0)

/-- One row of the Munsell reference CSV: name, RGB value and the value of
the optional description column. -/
structure MunsellEntry where
  munsell_name : String
  R : ℚ
  G : ℚ
  B : ℚ
  description : String
deriving DecidableEq

/-- The `ColorAnalyzer` state: `munsell_df` is `none` when the CSV was not
found (then no classifier is trained); `hasDescriptionColumn` records whether
the loaded table has a `description` column. -/
structure ColorAnalyzer where
  munsell_df : Option (List MunsellEntry)
  hasDescriptionColumn : Bool

/-- Squared Euclidean distance in RGB space between a chart entry and a
query triple, as used by the 1-nearest-neighbor classifier. -/
def sqDist (e : MunsellEntry) (q : ℚ × ℚ × ℚ) : ℚ :=
  (e.R - q.1) ^ 2 + (e.G - q.2.1) ^ 2 + (e.B - q.2.2) ^ 2

/-- The nearest chart entry to a query (first entry wins on distance ties):
the deterministic core of `KNeighborsClassifier(n_neighbors=1,
metric=euclidean).predict`. -/
def nearestEntry (q : ℚ × ℚ × ℚ) : List MunsellEntry → Option MunsellEntry
  | [] => none
  | e :: es =>
    match nearestEntry q es with
    | none => some e
    | some best => if sqDist e q ≤ sqDist best q then some e else some best

/-- `ColorAnalyzer._match_to_munsell`: predict the Munsell name of an RGB
triple; an error models calling the classifier with no training data. -/
def predictMunsell (entries : List MunsellEntry) (q : ℚ × ℚ × ℚ) :
    Except String String :=
  match nearestEntry q entries with
  | some e => Except.ok e.munsell_name
  | none => Except.error ("classifier not fitted")

/-- Does the character list `pat` occur at the start of `text`? -/
def startsWithChars : List Char → List Char → Bool
  | [], _ => true
  | _ :: _, [] => false
  | a :: as, b :: bs => a == b && startsWithChars as bs

/-- Does the character list `pat` occur anywhere inside `text`? -/
def hasSubstrChars (pat : List Char) : List Char → Bool
  | [] => pat.isEmpty
  | b :: bs => startsWithChars pat (b :: bs) || hasSubstrChars pat bs

/-- Python's `pat in s` substring test. -/
def strContains (s pat : String) : Bool := hasSubstrChars pat.data s.data

/-- Python's `str.upper()` (the chart codes are ASCII). -/
def toUpperPy (s : String) : String := ⟨s.data.map Char.toUpper⟩

/-- Helper for `str.split()` with no argument: accumulate the current word
(reversed) while scanning. -/
def wordsAux : List Char → List Char → List (List Char)
  | [], acc => if acc.isEmpty then [] else [acc.reverse]
  | c :: cs, acc =>
    if c.isWhitespace then
      if acc.isEmpty then wordsAux cs [] else acc.reverse :: wordsAux cs []
    else wordsAux cs (c :: acc)

/-- Python's `str.split()` with no argument: whitespace runs as separators,
no empty pieces. -/
def splitWs (s : String) : List String :=
  (wordsAux s.data []).map (fun l => ⟨l⟩)

/-- Python's `str.split(sep)` for a one-character separator. -/
def splitCharOn (sep : Char) : List Char → List (List Char)
  | [] => [[]]
  | c :: cs =>
    let r := splitCharOn sep cs
    if c == sep then [] :: r
    else
      match r with
      | t :: rest => (c :: t) :: rest
      | [] => [[c]]

/-- Python's `str.strip()` on a character list. -/
def trimChars (l : List Char) : List Char :=
  ((l.dropWhile Char.isWhitespace).reverse.dropWhile Char.isWhitespace).reverse

/-- Python's `int(s)`: optional surrounding whitespace, optional sign, at
least one digit; anything else raises (modelled as `none`). -/
def parseIntPy (s : List Char) : Option ℤ :=
  let t := trimChars s
  let sd : ℤ × List Char :=
    match t with
    | '-' :: rest => (-1, rest)
    | '+' :: rest => (1, rest)
    | l => (1, l)
  if sd.2 ≠ [] ∧ sd.2.all Char.isDigit then
    some (sd.1 * ((sd.2.foldl (fun n c => 10 * n + (c.toNat - '0'.toNat)) 0 : ℕ) : ℤ))
  else none

/-- The lightness adjective chosen from the parsed Munsell value in
`_generate_description_from_code`. -/
def lightnessOfValue (v : ℤ) : String :=
  if v ≤ 2 then "Black"
  else if v ≤ 3 then "Very Dark"
  else if v ≤ 4 then "Dark"
  else if v ≤ 5 then "Medium"
  else if v ≤ 6 then "Light"
  else if v ≤ 7 then "Pale"
  else "Very Pale"

/-- The `int(code.split()[1].split('/')[0])` parse inside the `try` block of
`_generate_description_from_code`; `none` models a caught exception. -/
def parsedMunsellValue (code : String) : Option ℤ :=
  match splitWs code with
  | _ :: p1 :: _ =>
    match splitCharOn '/' p1.data with
    | v0 :: _ => parseIntPy v0
    | [] => none
  | _ => none

/-- The lightness string after the `try/except`: empty on parse failure. -/
def lightnessOfCode (code : String) : String :=
  match parsedMunsellValue code with
  | some v => lightnessOfValue v
  | none => ""

/-- The base color name chosen by the substring tests of
`_generate_description_from_code` on the uppercased code. -/
def baseOfCode (code : String) : String :=
  if strContains code ("YR") then
    if strContains code ("10YR") || strContains code ("7.5YR") then "Brown"
    else if strContains code ("5YR") || strContains code ("2.5YR") then "Reddish Brown"
    else "Brown"
  else if strContains code ("Y") then
    if strContains code ("5Y") then "Olive" else "Yellowish Brown"
  else if strContains code ("GLEY") then "Gray"
  else if strContains code ("R") then "Red"
  else "Gray"

/-- `ColorAnalyzer._generate_description_from_code`. -/
def generateDescriptionFromCode (munsell_code : String) : String :=
  let code := toUpperPy munsell_code
  let lightness := lightnessOfCode code
  let base := baseOfCode code
  if lightness ≠ "" then lightness ++ " " ++ base else base

/-- `self.munsell_df[self.munsell_df['munsell_name'] == munsell_code]`,
reduced to its first row. -/
def first_match (entries : List MunsellEntry) (code : String) : Option MunsellEntry :=
  entries.find? (fun e => e.munsell_name == code)

/-- `ColorAnalyzer.get_color_description`. -/
def get_color_description (a : ColorAnalyzer) (munsell_code : String) : String :=
  match a.munsell_df with
  | none => "Unknown"
  | some entries =>
    match first_match entries munsell_code with
    | some e =>
      if a.hasDescriptionColumn then e.description
      else generateDescriptionFromCode munsell_code
    | none => generateDescriptionFromCode munsell_code

/-- A pixel in OpenCV channel order (blue, green, red); channel values are
modelled as exact rationals. -/
structure BGR where
  b : ℚ
  g : ℚ
  r : ℚ
deriving DecidableEq

/-- A pixel converted to OpenCV HSV space. -/
structure HSV where
  h : ℚ
  s : ℚ
  v : ℚ

/-- The per-pixel main soil mask of `_filter_soil_pixels`: brightness in
(25,200), saturation < 150, and hue < 50 or hue > 160 or saturation < 30. -/
def pixelMaskMain (hsvOf : BGR → HSV) (p : BGR) : Bool :=
  let q := hsvOf p
  decide ((25 < q.v ∧ q.v < 200) ∧ q.s < 150 ∧ (q.h < 50 ∨ 160 < q.h ∨ q.s < 30))

/-- The coarser fallback mask of `_filter_soil_pixels`: brightness in (30,220). -/
def pixelMaskSimple (hsvOf : BGR → HSV) (p : BGR) : Bool :=
  decide (30 < (hsvOf p).v ∧ (hsvOf p).v < 220)

/-- The zero pixel produced by `cv2.bitwise_and` for masked-out positions. -/
def blackPixel : BGR := ⟨0, 0, 0⟩

/-- `ColorAnalyzer._filter_soil_pixels`: zero out non-soil pixels; if fewer
than 10% survive the main mask, use the coarser mask instead. The image is a
flattened pixel list; `hsvOf` models `cv2.cvtColor(…, COLOR_BGR2HSV)`. -/
def filterSoilPixels (hsvOf : BGR → HSV) (image : List BGR) : List BGR :=
  let validCount := (image.filter (pixelMaskMain hsvOf)).length
  if (validCount : ℚ) < (image.length : ℚ) * (1 / 10) then
    image.map (fun p => if pixelMaskSimple hsvOf p then p else blackPixel)
  else
    image.map (fun p => if pixelMaskMain hsvOf p then p else blackPixel)

/-- `np.clip(x, 0, 255).astype(np.uint8)` on one channel value. -/
def clipToByte (x : ℚ) : ℚ := ((⌊max 0 (min 255 x)⌋ : ℤ) : ℚ)

/-- `ColorAnalyzer._apply_white_balance` (gray-world): scale each channel by
`gray_mean / channel_mean`, substituting 1 for a zero channel mean. -/
def applyWhiteBalance (image : List BGR) : List BGR :=
  let n : ℚ := (image.length : ℚ)
  let avg_b := (image.map (fun p => p.b)).sum / n
  let avg_g := (image.map (fun p => p.g)).sum / n
  let avg_r := (image.map (fun p => p.r)).sum / n
  let avg_gray := (avg_b + avg_g + avg_r) / 3
  let ab := if avg_b = 0 then 1 else avg_b
  let ag := if avg_g = 0 then 1 else avg_g
  let ar := if avg_r = 0 then 1 else avg_r
  image.map (fun p =>
    ⟨clipToByte (p.b * (avg_gray / ab)),
     clipToByte (p.g * (avg_gray / ag)),
     clipToByte (p.r * (avg_gray / ar))⟩)

/-- The sample filter of `_get_dominant_color_kmeans`: every channel above 15
and below 240, and channel mean below 220. -/
def soilSampleOK (p : BGR) : Bool :=
  decide ((15 < p.b ∧ 15 < p.g ∧ 15 < p.r) ∧
          (p.b < 240 ∧ p.g < 240 ∧ p.r < 240) ∧
          (p.b + p.g + p.r) / 3 < 220)

/-- `np.mean(pixels)` over an (n,3) sample array: the mean of all channel
values. -/
def channelMeanAll (ps : List BGR) : ℚ :=
  (ps.map (fun p => p.b + p.g + p.r)).sum / (3 * (ps.length : ℚ))

/-- The secondary too-bright re-filter of `_get_dominant_color_kmeans`:
applied only when the overall mean exceeds 180 and more than 100 samples
have per-sample mean below 180. -/
def brightnessRefilter (ps : List BGR) : List BGR :=
  if 180 < channelMeanAll ps then
    let darker := ps.filter (fun p => decide ((p.b + p.g + p.r) / 3 < 180))
    if 100 < darker.length then darker else ps
  else ps

/-- The signature of the `cv2.kmeans` call: samples and a cluster count in,
per-sample labels and cluster centers out. The clustering itself is an
external randomized routine, so it is kept as a parameter. -/
def KmeansFn : Type := List BGR → ℕ → (List ℕ × List BGR)

/-- What `cv2.kmeans` guarantees when called with a nonempty sample list and
`K ≥ 1`: one label per sample, `K` centers, and labels indexing the centers. -/
def KmeansWF (km : KmeansFn) : Prop :=
  ∀ ps k, ps ≠ [] → 1 ≤ k →
    (km ps k).1.length = ps.length ∧ (km ps k).2.length = k ∧
    ∀ u ∈ (km ps k).1, u < k

/-- `np.unique` on the label list: its distinct values in ascending order. -/
def npUnique (labels : List ℕ) : List ℕ :=
  (List.range (labels.foldr max 0 + 1)).filter (fun i => labels.contains i)

/-- `candidates[np.argmax(counts)]`: the candidate maximizing `f`, the first
one on ties (as `np.argmax` returns the first maximal index). -/
def argmaxFirst (f : ℕ → ℕ) : List ℕ → Option ℕ
  | [] => none
  | x :: xs =>
    match argmaxFirst f xs with
    | none => some x
    | some y => if f x < f y then some y else some x

/-- `ColorAnalyzer._get_dominant_color_kmeans`: filter the samples, return
neutral gray if none survive, otherwise cluster and return the center of the
most populous cluster as an integer RGB triple. Errors model the numpy/cv2
calls that would raise on an empty or inconsistent input. -/
def getDominantColorKmeans (km : KmeansFn) (image : List BGR) (k : ℕ) :
    Except String (ℤ × ℤ × ℤ) :=
  let pixels := image.filter soilSampleOK
  if pixels.isEmpty then Except.ok (128, 128, 128)
  else
    let pixels2 := brightnessRefilter pixels
    let res := km pixels2 (min k pixels2.length)
    match argmaxFirst (fun u => res.1.count u) (npUnique res.1) with
    | none => Except.error ("kmeans produced no labels")
    | some u =>
      match res.2.get? u with
      | none => Except.error ("label out of center range")
      | some c => Except.ok (pyInt c.r, pyInt c.g, pyInt c.b)

/-- `ColorAnalyzer._fallback_color_description`: heuristic name from the HSV
conversion of the RGB triple, used when no chart is loaded. -/
def fallbackColorDescription (hsvOf : BGR → HSV) (rgb : ℤ × ℤ × ℤ) : String :=
  let q := hsvOf ⟨(rgb.2.2 : ℚ), (rgb.2.1 : ℚ), (rgb.1 : ℚ)⟩
  let brightness := if q.v < 50 then "Dark" else if q.v < 150 then "Medium" else "Light"
  let saturation := if q.s < 30 then "Grayish" else if q.s < 100 then "" else "Vivid"
  let hue_name :=
    if q.s < 30 then "Gray"
    else if q.h < 15 ∨ 165 < q.h then "Reddish"
    else if q.h < 25 then "Orange"
    else if q.h < 35 then "Yellowish Brown"
    else if q.h < 85 then "Brown"
    else "Grayish Brown"
  String.intercalate " " (([brightness, saturation, hue_name]).filter (fun s => s != ""))

/-- `ColorAnalyzer.analyze_color`: `none` models a `None` image; an empty
list models a zero-size image. -/
def analyze_color (hsvOf : BGR → HSV) (km : KmeansFn) (a : ColorAnalyzer)
    (image : Option (List BGR)) (apply_white_balance : Bool) : Except String String :=
  match image with
  | none => Except.ok ("Unknown")
  | some img =>
    if img.isEmpty then Except.ok ("Unknown")
    else
      let filtered := filterSoilPixels hsvOf img
      let filtered2 := if apply_white_balance && !filtered.isEmpty
                       then applyWhiteBalance filtered else filtered
      (if !filtered2.isEmpty then getDominantColorKmeans km filtered2 3
       else getDominantColorKmeans km img 3).bind
        (fun rgb =>
          match a.munsell_df with
          | some entries =>
            predictMunsell entries ((rgb.1 : ℚ), (rgb.2.1 : ℚ), (rgb.2.2 : ℚ))
          | none => Except.ok (fallbackColorDescription hsvOf rgb))

/-- A two-entry chart used to instantiate `C1_chart_match`. -/
def chartEx : List MunsellEntry :=
  [⟨"10YR 4/3", 120, 90, 60, "Brown"⟩, ⟨"5Y 6/2", 150, 140, 100, "Olive"⟩]

/-- A one-entry chart whose only description is the empty string, used for
the C7 counterexample. -/
def chartEmptyDesc : List MunsellEntry := [⟨"10YR 4/3", 120, 90, 60, ""⟩]

/-- Co-monotonicity of a point list: points with larger `pixel_y` have
strictly larger `depth_cm`, and points with equal `pixel_y` have equal
`depth_cm`. -/
def CoMono (l : List (ℤ × ℚ)) : Prop :=
  ∀ x ∈ l, ∀ y ∈ l, (x.1 < y.1 → x.2 < y.2) ∧ (x.1 = y.1 → x.2 = y.2)

/-- The zone name demanded by the amended C5 claim: positional entry of the
default table for `n_zones ≤ 4`, generic label otherwise. -/
def specZoneName (n i : ℕ) : String :=
  if n ≤ 4 then defaultZoneNames.getD i (zoneLabel i) else zoneLabel i

/-- A trivial clustering stub satisfying `KmeansWF`, used to instantiate the
C8 and C9 theorems. -/
def kmConst : KmeansFn := fun ps k => (ps.map (fun _ => 0), List.replicate k ⟨0, 0, 0⟩)

/-- A trivial stand-in for the BGR→HSV conversion, used to instantiate the
C8 theorem. -/
def hsvId : BGR → HSV := fun p => ⟨p.b, p.g, p.r⟩

example : generateDescriptionFromCode "10YR 4/3" = "Dark Brown" := by rfl
example : generateDescriptionFromCode "gibberish" = "Red" := by rfl
example : generateDescriptionFromCode "5Y 6/2" = "Light Olive" := by rfl
example : get_color_description ⟨some [⟨"10YR 4/3", 120, 90, 60, ""⟩], true⟩ "10YR 4/3" = "" := by rfl

example : estimate_depth (0, 0, 100, 200) 10 0 = (0, 20) := by
  norm_num [estimate_depth, pyRound1, pyRoundHalfEvenZ]

/-- The nearest-neighbor fold always selects a first-position minimum: the
returned entry splits the chart into a strictly-farther prefix and carries a
globally minimal distance. -/
theorem nearestEntry_spec (q : ℚ × ℚ × ℚ) :
    ∀ (entries : List MunsellEntry), entries ≠ [] →
      ∃ pre e post, entries = pre ++ e :: post ∧
        nearestEntry q entries = some e ∧
        (∀ x ∈ entries, sqDist e q ≤ sqDist x q) ∧
        (∀ x ∈ pre, sqDist e q < sqDist x q) := by
  intro entries
  induction entries with
  | nil => intro h; exact absurd rfl h
  | cons a es ih =>
    intro _
    by_cases hes : es = []
    · subst hes
      refine ⟨[], a, [], rfl, rfl, ?_, by simp⟩
      intro x hx
      rw [List.mem_singleton] at hx
      subst hx
      exact le_refl _
    · obtain ⟨pre, e, post, hdec, hne, hmin, hstrict⟩ := ih hes
      by_cases hle : sqDist a q ≤ sqDist e q
      · refine ⟨[], a, es, rfl, ?_, ?_, by simp⟩
        · simp [nearestEntry, hne, hle]
        · intro x hx
          rcases List.mem_cons.mp hx with h | h
          · subst h; exact le_refl _
          · exact le_trans hle (hmin x h)
      · push_neg at hle
        refine ⟨a :: pre, e, post, by rw [hdec]; rfl, ?_, ?_, ?_⟩
        · simp [nearestEntry, hne, not_le.mpr hle]
        · intro x hx
          rcases List.mem_cons.mp hx with h | h
          · subst h; exact le_of_lt hle
          · exact hmin x h
        · intro x hx
          rcases List.mem_cons.mp hx with h | h
          · subst h; exact hle
          · exact hstrict x h

/-- Claim C1: with a loaded chart, `ChartMatcher.match` returns the code of
the chart entry at strictly minimal Euclidean distance from the query, and
on ties the first such entry in chart load order (every earlier entry is
strictly farther, every entry is at least as far). -/
theorem C1_chart_match (entries : List MunsellEntry) (q : ℚ × ℚ × ℚ)
    (hne : entries ≠ []) :
    ∃ pre e post, entries = pre ++ e :: post ∧
      predictMunsell entries q = Except.ok e.munsell_name ∧
      (∀ x ∈ entries, sqDist e q ≤ sqDist x q) ∧
      (∀ x ∈ pre, sqDist e q < sqDist x q) := by
  obtain ⟨pre, e, post, hdec, hne2, hmin, hstrict⟩ := nearestEntry_spec q entries hne
  exact ⟨pre, e, post, hdec, by simp [predictMunsell, hne2], hmin, hstrict⟩

/-- Witness for `C1_chart_match` at a concrete chart and query. -/
theorem C1_chart_match_witness :
    chartEx ≠ [] ∧
    (∃ pre e post, chartEx = pre ++ e :: post ∧
      predictMunsell chartEx (100, 80, 50) = Except.ok e.munsell_name ∧
      (∀ x ∈ chartEx, sqDist e (100, 80, 50) ≤ sqDist x (100, 80, 50)) ∧
      (∀ x ∈ pre, sqDist e (100, 80, 50) < sqDist x (100, 80, 50))) :=
  ⟨by simp [chartEx], C1_chart_match chartEx (100, 80, 50) (by simp [chartEx])⟩

/-- Claim C2: `estimate_depth` returns the rounded `ref_top + y/ratio` pair,
with a non-positive ratio silently replaced by 10.0; any call with
`ratio ≤ 0` equals the same call with ratio 10, and
`estimate_depth((0,0,100,200), 10, 0) = (0.0, 20.0)`. -/
theorem C2_estimate_depth (x0 y0 x1 y1 : ℤ) (ratio ref : ℚ) :
    estimate_depth (x0, y0, x1, y1) ratio ref =
      (pyRound1 (ref + (y0 : ℚ) / (if ratio ≤ 0 then 10 else ratio)),
       pyRound1 (ref + (y1 : ℚ) / (if ratio ≤ 0 then 10 else ratio))) ∧
    (ratio ≤ 0 →
      estimate_depth (x0, y0, x1, y1) ratio ref =
        estimate_depth (x0, y0, x1, y1) 10 ref) ∧
    estimate_depth (0, 0, 100, 200) 10 0 = (0, 20) := by
  refine ⟨rfl, ?_, by norm_num [estimate_depth, pyRound1, pyRoundHalfEvenZ]⟩
  intro h
  simp only [estimate_depth, if_pos h, if_neg (by norm_num : ¬ (10 : ℚ) ≤ 0)]

/-- Witness for `C2_estimate_depth`: a negative ratio call coincides with the
default-ratio call. -/
theorem C2_estimate_depth_witness :
    ((-5 : ℚ) ≤ 0) ∧
    estimate_depth (0, 0, 100, 200) (-5) 0 = estimate_depth (0, 0, 100, 200) 10 0 :=
  ⟨by norm_num, (C2_estimate_depth 0 0 100 200 (-5) 0).2.1 (by norm_num)⟩

/-- `_recalculate_ratio` only updates the ratio, never the point list. -/
theorem recalculateRatio_points (c : DepthCalibrator) :
    (recalculateRatio c).reference_points = c.reference_points := by
  simp only [recalculateRatio]
  split
  · rfl
  · split <;> rfl

/-- `add_reference_point` appends its point to the list (in insertion order). -/
theorem addReferencePoint_points (c : DepthCalibrator) (p : ℤ) (d : ℚ) :
    (addReferencePoint c p d).reference_points = c.reference_points ++ [(p, d)] := by
  simp only [addReferencePoint]
  split
  · rw [recalculateRatio_points]
  · rfl

/-- Feeding a point list to a calibrator appends it to the stored points. -/
theorem foldl_calibStep_points :
    ∀ (pts : List (ℤ × ℚ)) (c : DepthCalibrator),
      (List.foldl calibStep c pts).reference_points = c.reference_points ++ pts := by
  intro pts
  induction pts with
  | nil => intro c; simp
  | cons pd rest ih =>
    intro c
    rw [List.foldl_cons]
    rw [ih (calibStep c pd)]
    show (addReferencePoint c pd.1 pd.2).reference_points ++ rest = _
    rw [addReferencePoint_points]
    simp

/-- A fresh calibrator fed `pts` stores exactly `pts`. -/
theorem calibRun_points (r0 : ℚ) (pts : List (ℤ × ℚ)) :
    (calibRun r0 pts).reference_points = pts := by
  rw [calibRun, foldl_calibStep_points]
  rfl

/-- When the appended point brings the count to two or more and the slope
list of the sorted points is nonempty, `add_reference_point` sets the ratio
to the mean of those slopes. -/
theorem addReferencePoint_ratio (c : DepthCalibrator) (p : ℤ) (d : ℚ)
    (h2 : 2 ≤ (c.reference_points ++ [(p, d)]).length)
    (hs : slopes (sortByPixel (c.reference_points ++ [(p, d)])) ≠ []) :
    (addReferencePoint c p d).pixel_cm_ratio =
      listMean (slopes (sortByPixel (c.reference_points ++ [(p, d)]))) := by
  simp only [addReferencePoint]
  rw [if_pos h2]
  simp only [recalculateRatio]
  rw [if_neg (not_lt.mpr h2), if_neg (by simpa using hs)]

/-- The final ratio of a run of `add_reference_point` calls is the slope
mean over the final point list, provided that list has two or more points
and at least one valid slope. -/
theorem calibRun_ratio (r0 : ℚ) (pts : List (ℤ × ℚ))
    (h2 : 2 ≤ pts.length) (hs : slopes (sortByPixel pts) ≠ []) :
    (calibRun r0 pts).pixel_cm_ratio = listMean (slopes (sortByPixel pts)) := by
  have hne : pts ≠ [] := by
    intro h
    rw [h] at h2
    simp at h2
  obtain ⟨ps, l, hpl⟩ : ∃ ps l, pts = ps ++ [l] :=
    ⟨pts.dropLast, pts.getLast hne, (List.dropLast_append_getLast hne).symm⟩
  subst hpl
  unfold calibRun
  rw [List.foldl_append, List.foldl_cons, List.foldl_nil]
  have hpts : (List.foldl calibStep (DepthCalibrator.mk r0 []) ps).reference_points = ps := by
    rw [foldl_calibStep_points]
    rfl
  show (addReferencePoint _ l.1 l.2).pixel_cm_ratio = _
  rw [addReferencePoint_ratio _ l.1 l.2 (by rw [hpts]; simpa using h2)
    (by rw [hpts]; simpa using hs), hpts]

/-- Claim C3: after `add_reference_point` has supplied two or more points
(with at least one sorted consecutive pair of distinct depths), the ratio is
the arithmetic mean of the consecutive `Δpixel/Δdepth` slopes of the points
sorted by `pixel_y`, and `get_depth_at_pixel(p)` is
`depth0 + (p - pixel0)/ratio` for the first point by insertion order; in
particular points (0,0.0) and (100,10.0) give ratio 10.0 and
`get_depth_at_pixel(50) = 5.0`. -/
theorem C3_calibrator (r0 : ℚ) (p0 : ℤ) (d0 : ℚ) (rest : List (ℤ × ℚ))
    (h2 : 2 ≤ ((p0, d0) :: rest).length)
    (hs : slopes (sortByPixel ((p0, d0) :: rest)) ≠ []) :
    (calibRun r0 ((p0, d0) :: rest)).pixel_cm_ratio =
      listMean (slopes (sortByPixel ((p0, d0) :: rest))) ∧
    (∀ py : ℤ,
      getDepthAtPixel (calibRun r0 ((p0, d0) :: rest)) py =
        d0 + ((py : ℚ) - (p0 : ℚ)) / (calibRun r0 ((p0, d0) :: rest)).pixel_cm_ratio) ∧
    (calibRun 10 [(0, 0), (100, 10)]).pixel_cm_ratio = 10 ∧
    getDepthAtPixel (calibRun 10 [(0, 0), (100, 10)]) 50 = 5 := by
  refine ⟨calibRun_ratio r0 _ h2 hs, ?_, ?_, ?_⟩
  · intro py
    rw [getDepthAtPixel, calibRun_points]
  · norm_num [calibRun, calibStep, addReferencePoint, recalculateRatio, sortByPixel,
      List.insertionSort, List.orderedInsert, pixelLE, slopes, listMean]
  · norm_num [calibRun, calibStep, addReferencePoint, recalculateRatio, sortByPixel,
      List.insertionSort, List.orderedInsert, pixelLE, slopes, listMean, getDepthAtPixel]

/-- Witness for `C3_calibrator` on the two-point example from the spec. -/
theorem C3_calibrator_witness :
    2 ≤ ([((0 : ℤ), (0 : ℚ)), (100, 10)]).length ∧
    slopes (sortByPixel [((0 : ℤ), (0 : ℚ)), (100, 10)]) ≠ [] ∧
    (calibRun 10 [((0 : ℤ), (0 : ℚ)), (100, 10)]).pixel_cm_ratio =
      listMean (slopes (sortByPixel [((0 : ℤ), (0 : ℚ)), (100, 10)])) :=
  ⟨by norm_num,
   by norm_num [sortByPixel, List.insertionSort, List.orderedInsert, pixelLE, slopes],
   (C3_calibrator 10 0 0 [(100, 10)] (by norm_num)
     (by norm_num [sortByPixel, List.insertionSort, List.orderedInsert, pixelLE, slopes])).1⟩

/-- `sortByPixel` output is sorted by `pixel_y`. -/
theorem sorted_sortByPixel (l : List (ℤ × ℚ)) : (sortByPixel l).Sorted pixelLE :=
  List.sorted_insertionSort pixelLE l

/-- `sortByPixel` permutes its input, so membership is unchanged. -/
theorem mem_sortByPixel (l : List (ℤ × ℚ)) (x : ℤ × ℚ) :
    x ∈ sortByPixel l ↔ x ∈ l :=
  (List.perm_insertionSort pixelLE l).mem_iff

/-- Every slope of a sorted, co-monotone point list is strictly positive. -/
theorem slopes_pos :
    ∀ (l : List (ℤ × ℚ)), l.Sorted pixelLE →
      (∀ x ∈ l, ∀ y ∈ l, (x.1 < y.1 → x.2 < y.2) ∧ (x.1 = y.1 → x.2 = y.2)) →
      ∀ s ∈ slopes l, 0 < s := by
  intro l
  induction l with
  | nil => intro _ _ s hs; simp [slopes] at hs
  | cons a t ih =>
    cases t with
    | nil => intro _ _ s hs; simp [slopes] at hs
    | cons b r =>
      intro hsort hco s hs
      obtain ⟨hab, hsort2⟩ := List.sorted_cons.mp hsort
      have hab2 : a.1 ≤ b.1 := hab b (by simp)
      rw [slopes] at hs
      rcases List.mem_append.mp hs with h | h
      · by_cases hd : b.2 - a.2 ≠ 0
        · rw [if_pos hd, List.mem_singleton] at h
          subst h
          have hpair := hco a (by simp) b (by simp)
          have hlt : a.1 < b.1 := by
            rcases lt_or_eq_of_le hab2 with h1 | h1
            · exact h1
            · exact absurd (sub_eq_zero.mpr (hpair.2 h1).symm) hd
          apply div_pos
          · exact_mod_cast sub_pos.mpr hlt
          · exact sub_pos.mpr (hpair.1 hlt)
        · rw [if_neg hd] at h
          simp at h
      · exact ih hsort2
          (fun x hx y hy => hco x (by simp [hx]) y (by simp [hy])) s h

/-- The mean of a nonempty list of positive rationals is positive. -/
theorem listMean_pos (l : List ℚ) (hne : l ≠ []) (hpos : ∀ x ∈ l, 0 < x) :
    0 < listMean l := by
  apply div_pos
  · exact List.sum_pos l hpos hne
  · exact_mod_cast List.length_pos.mpr hne

/-- `add_reference_point` keeps the ratio positive when the stored points
together with the new one are co-monotone. -/
theorem addReferencePoint_ratio_pos (c : DepthCalibrator) (p : ℤ) (d : ℚ)
    (hr : 0 < c.pixel_cm_ratio)
    (hco : CoMono (c.reference_points ++ [(p, d)])) :
    0 < (addReferencePoint c p d).pixel_cm_ratio := by
  simp only [addReferencePoint]
  split
  · simp only [recalculateRatio]
    split
    · exact hr
    · split
      · exact hr
      next hrs =>
        apply listMean_pos
        · intro h
          rw [h] at hrs
          simp at hrs
        · intro s hs
          apply slopes_pos _ (sorted_sortByPixel _) _ s hs
          intro x hx y hy
          exact hco x ((mem_sortByPixel _ _).mp hx) y ((mem_sortByPixel _ _).mp hy)
  · exact hr

/-- Feeding a calibrator any co-monotone batch of points preserves ratio
positivity. -/
theorem foldl_calibStep_ratio_pos :
    ∀ (pts : List (ℤ × ℚ)) (c : DepthCalibrator), 0 < c.pixel_cm_ratio →
      CoMono (c.reference_points ++ pts) →
      0 < (List.foldl calibStep c pts).pixel_cm_ratio := by
  intro pts
  induction pts with
  | nil => intro c hr _; simpa using hr
  | cons pd rest ih =>
    intro c hr hco
    rw [List.foldl_cons]
    apply ih
    · show 0 < (addReferencePoint c pd.1 pd.2).pixel_cm_ratio
      apply addReferencePoint_ratio_pos c pd.1 pd.2 hr
      have hsub : ∀ z : ℤ × ℚ,
          z ∈ c.reference_points ++ [(pd.1, pd.2)] →
          z ∈ c.reference_points ++ pd :: rest := by
        intro z hz
        rcases List.mem_append.mp hz with h | h
        · exact List.mem_append.mpr (Or.inl h)
        · rw [List.mem_singleton] at h
          subst h
          exact List.mem_append.mpr (Or.inr (by simp))
      exact fun x hx y hy => hco x (hsub x hx) y (hsub y hy)
    · show CoMono ((addReferencePoint c pd.1 pd.2).reference_points ++ rest)
      rw [addReferencePoint_points]
      have heq : (c.reference_points ++ [(pd.1, pd.2)]) ++ rest =
          c.reference_points ++ pd :: rest := by simp
      rw [heq]
      exact hco

/-- Claim C4 fails on the code: a calibrator started at the positive default
10 and fed the points (0, 0.0) and (100, −10.0) ends with
`pixel_cm_ratio = −10`, which is not strictly positive. -/
theorem C4_counterexample :
    (0 : ℚ) < 10 ∧
    ¬ (0 < (calibRun 10 [((0 : ℤ), (0 : ℚ)), (100, -10)]).pixel_cm_ratio) := by
  constructor
  · norm_num
  · norm_num [calibRun, calibStep, addReferencePoint, recalculateRatio, sortByPixel,
      List.insertionSort, List.orderedInsert, pixelLE, slopes, listMean]

/-- Claim C4 (amended): for a `DepthCalibrator` created with a strictly
positive default ratio, `pixel_cm_ratio` stays strictly positive after every
sequence of `add_reference_point` calls whose points are co-monotone (larger
`pixel_y` means strictly larger `depth_cm`, equal `pixel_y` means equal
`depth_cm`); for arbitrary point values it can become zero or negative. -/
theorem C4_amended (r0 : ℚ) (pts : List (ℤ × ℚ)) (hr : 0 < r0) (hco : CoMono pts) :
    0 < (calibRun r0 pts).pixel_cm_ratio := by
  apply foldl_calibStep_ratio_pos pts (DepthCalibrator.mk r0 []) hr
  simpa [CoMono] using hco

/-- Witness for `C4_amended` on the spec's two-point example. -/
theorem C4_amended_witness :
    (0 : ℚ) < 10 ∧ CoMono [((0 : ℤ), (0 : ℚ)), (100, 10)] ∧
    0 < (calibRun 10 [((0 : ℤ), (0 : ℚ)), (100, 10)]).pixel_cm_ratio :=
  ⟨by norm_num,
   by intro x hx y hy; fin_cases hx <;> fin_cases hy <;> norm_num,
   C4_amended 10 [((0 : ℤ), (0 : ℚ)), (100, 10)] (by norm_num)
     (by intro x hx y hy; fin_cases hx <;> fin_cases hy <;> norm_num)⟩

/-- Rounding to the nearest integer fixes integers. -/
theorem pyRoundHalfEvenZ_intCast (m : ℤ) : pyRoundHalfEvenZ (m : ℚ) = m := by
  simp only [pyRoundHalfEvenZ, Int.floor_intCast]
  rw [if_pos]
  norm_num

/-- Rounding to one decimal fixes exact multiples of one tenth. -/
theorem pyRound1_int_div10 (m : ℤ) : pyRound1 ((m : ℚ) / 10) = (m : ℚ) / 10 := by
  rw [pyRound1, (show (10 : ℚ) * ((m : ℚ) / 10) = (m : ℚ) by ring),
    pyRoundHalfEvenZ_intCast]

/-- `get_depth_zones` always returns one zone per index of `range n`. -/
theorem get_depth_zones_length (total : ℚ) (n : ℕ) :
    (get_depth_zones total n).length = n := by
  simp [get_depth_zones]

/-- The zone at index `i`: its name from the name table and its rounded
bounds. -/
theorem get_depth_zones_get (total : ℚ) (n : ℕ) (i : ℕ)
    (hi : i < (get_depth_zones total n).length) :
    (get_depth_zones total n).get ⟨i, hi⟩ =
      ((if 4 < n then (List.range n).map zoneLabel else defaultZoneNames).getD i
        (zoneLabel i),
       pyRound1 ((i : ℚ) * (total / (n : ℚ))),
       pyRound1 (((i : ℚ) + 1) * (total / (n : ℚ)))) := by
  have hi2 : i < n := by
    rw [get_depth_zones_length] at hi
    exact hi
  simp [get_depth_zones]

/-- Claim C5 fails on the code: `zones(10, 1)` names its single zone
`"Surface"`, not `"Zone 1"` as the claim requires for `n_zones ≠ 4`. -/
theorem C5_counterexample :
    get_depth_zones 10 1 = [("Surface", 0, 10)] ∧
    ("Surface" : String) ≠ "Zone 1" := by
  constructor
  · norm_num [get_depth_zones, pyRound1, pyRoundHalfEvenZ, List.range_succ,
      defaultZoneNames]
  · decide

/-- Claim C5 (amended): for `n_zones ≥ 1`, `zones` returns `n_zones` zones
with bounds `round(i*total/n, 1)`, named positionally from
`["Surface","Shallow","Medium","Deep"]` when `n_zones ≤ 4` and `"Zone i"`
(1-indexed) when `n_zones > 4`; in particular `zones(40.0, 4)` is the
Surface/Shallow/Medium/Deep partition of the claim. -/
theorem C5_amended (total : ℚ) (n : ℕ) (_hn : 1 ≤ n) :
    get_depth_zones total n =
      (List.range n).map (fun i =>
        (specZoneName n i,
         pyRound1 ((i : ℚ) * (total / (n : ℚ))),
         pyRound1 (((i : ℚ) + 1) * (total / (n : ℚ))))) ∧
    get_depth_zones 40 4 =
      [("Surface", 0, 10), ("Shallow", 10, 20), ("Medium", 20, 30),
       ("Deep", 30, 40)] := by
  constructor
  · simp only [get_depth_zones]
    apply List.map_congr_left
    intro i hi
    rw [List.mem_range] at hi
    by_cases h4 : 4 < n
    · rw [if_pos h4, specZoneName, if_neg (not_le.mpr h4)]
      have hlen : i < ((List.range n).map zoneLabel).length := by simpa using hi
      rw [List.getD_eq_getElem _ _ hlen]
      simp
    · rw [if_neg h4, specZoneName, if_pos (not_lt.mp h4)]
  · norm_num [get_depth_zones, pyRound1, pyRoundHalfEvenZ, List.range_succ,
      defaultZoneNames]

/-- Witness for `C5_amended` at five zones of a 2 cm profile. -/
theorem C5_amended_witness :
    1 ≤ 5 ∧
    (get_depth_zones 2 5 =
      (List.range 5).map (fun i =>
        (specZoneName 5 i,
         pyRound1 ((i : ℚ) * ((2 : ℚ) / ((5 : ℕ) : ℚ))),
         pyRound1 (((i : ℚ) + 1) * ((2 : ℚ) / ((5 : ℕ) : ℚ))))) ∧
     get_depth_zones 40 4 =
      [("Surface", 0, 10), ("Shallow", 10, 20), ("Medium", 20, 30),
       ("Deep", 30, 40)]) :=
  ⟨by norm_num, C5_amended 2 5 (by norm_num)⟩

/-- Claim C6 fails on the code: for total depth 1/25 (= 0.04 cm, positive)
and one zone, rounding collapses the zone to `("Surface", 0.0, 0.0)`: its
top is not below its bottom and its bottom differs from the total depth. -/
theorem C6_counterexample :
    (0 : ℚ) < 1/25 ∧
    get_depth_zones (1/25) 1 = [("Surface", 0, 0)] ∧
    ¬ ((0 : ℚ) < 0) ∧ (0 : ℚ) ≠ 1/25 := by
  refine ⟨by norm_num, ?_, by norm_num, by norm_num⟩
  norm_num [get_depth_zones, pyRound1, pyRoundHalfEvenZ, List.range_succ,
    defaultZoneNames]

/-- Claim C6 (amended): when the zone height `total_depth/n_zones` is an
exact positive multiple of 0.1 (so 1-decimal rounding is lossless), every
zone has `top_cm < bottom_cm` and the zones partition `[0, total_depth]`
contiguously: the first top is 0, each bottom equals the next top, and the
last bottom is `total_depth`. For other inputs rounding can collapse a zone
and move the last bottom off `total_depth`. -/
theorem C6_amended (total : ℚ) (n k : ℕ) (hn : 1 ≤ n) (hk : 1 ≤ k)
    (hdiv : total / (n : ℚ) = (k : ℚ) / 10) :
    (get_depth_zones total n).length = n ∧
    (∀ i (hi : i < (get_depth_zones total n).length),
      ((get_depth_zones total n).get ⟨i, hi⟩).2.1 <
        ((get_depth_zones total n).get ⟨i, hi⟩).2.2) ∧
    (∀ h0 : 0 < (get_depth_zones total n).length,
      ((get_depth_zones total n).get ⟨0, h0⟩).2.1 = 0) ∧
    (∀ i (hi : i + 1 < (get_depth_zones total n).length),
      ((get_depth_zones total n).get ⟨i, Nat.lt_of_succ_lt hi⟩).2.2 =
        ((get_depth_zones total n).get ⟨i + 1, hi⟩).2.1) ∧
    (∀ hne : get_depth_zones total n ≠ [],
      ((get_depth_zones total n).getLast hne).2.2 = total) := by
  have htop : ∀ j : ℕ, pyRound1 ((j : ℚ) * (total / (n : ℚ))) =
      (((j * k : ℕ) : ℚ)) / 10 := by
    intro j
    rw [hdiv, (show (j : ℚ) * ((k : ℚ) / 10) = (((j * k : ℕ) : ℤ) : ℚ) / 10 by
      push_cast; ring), pyRound1_int_div10]
    push_cast
    ring
  have hbot : ∀ j : ℕ, pyRound1 (((j : ℚ) + 1) * (total / (n : ℚ))) =
      ((((j + 1) * k : ℕ) : ℚ)) / 10 := by
    intro j
    rw [(show ((j : ℚ) + 1) = (((j + 1 : ℕ)) : ℚ) by push_cast; ring), htop (j + 1)]
  refine ⟨get_depth_zones_length total n, ?_, ?_, ?_, ?_⟩
  · intro i hi
    rw [get_depth_zones_get total n i hi]
    dsimp only
    rw [htop i, hbot i]
    have hmul : i * k < (i + 1) * k := by
      rw [Nat.succ_mul]
      omega
    gcongr
  · intro h0
    rw [get_depth_zones_get total n 0 h0]
    dsimp only
    rw [htop 0]
    norm_num
  · intro i hi
    rw [get_depth_zones_get total n i (Nat.lt_of_succ_lt hi),
      get_depth_zones_get total n (i + 1) hi]
    dsimp only
    rw [hbot i, htop (i + 1)]
  · intro hne
    have h0 : 0 < (get_depth_zones total n).length := List.length_pos.mpr hne
    rw [List.getLast_eq_get]
    rw [get_depth_zones_get total n _ _]
    dsimp only
    rw [hbot ((get_depth_zones total n).length - 1)]
    have hlen : (get_depth_zones total n).length = n := get_depth_zones_length total n
    have hn1 : (get_depth_zones total n).length - 1 + 1 = n := by
      rw [hlen]
      omega
    rw [hn1]
    have hn0 : ((n : ℚ)) ≠ 0 := Nat.cast_ne_zero.mpr (by omega)
    rw [div_eq_div_iff hn0 (by norm_num : (10 : ℚ) ≠ 0)] at hdiv
    push_cast
    rw [div_eq_iff (by norm_num : (10 : ℚ) ≠ 0)]
    linarith [hdiv]

/-- Witness for `C6_amended`: 4 zones of a 2 cm profile (zone height 0.5). -/
theorem C6_amended_witness :
    1 ≤ 4 ∧ 1 ≤ 5 ∧ ((2 : ℚ) / ((4 : ℕ) : ℚ) = ((5 : ℕ) : ℚ) / 10) ∧
    (∀ hne : get_depth_zones 2 4 ≠ [],
      ((get_depth_zones 2 4).getLast hne).2.2 = 2) :=
  ⟨by norm_num, by norm_num, by norm_num,
   (C6_amended 2 4 5 (by norm_num) (by norm_num) (by norm_num)).2.2.2.2⟩

/-- Claim C7 fails on the code: with a chart entry for "10YR 4/3" whose
description is the empty string (and a description column present),
`describe` returns the empty description verbatim instead of the
synthesized "Dark Brown" that the claim requires for entries without a
non-empty description. -/
theorem C7_counterexample :
    get_color_description ⟨some chartEmptyDesc, true⟩ "10YR 4/3" = "" ∧
    generateDescriptionFromCode "10YR 4/3" = "Dark Brown" ∧
    ("" : String) ≠ "Dark Brown" :=
  ⟨rfl, rfl, by decide⟩

/-- Claim C7 (amended): with a loaded chart, `describe(code)` returns the
first matching entry's description verbatim exactly when an entry for
`code` exists and the chart has a description column — even when that
description is empty; otherwise it synthesizes `"{lightness} {base}"`,
where the lightness comes from the parsed value digit (≤2 Black, ≤3 Very
Dark, ≤4 Dark, ≤5 Medium, ≤6 Light, ≤7 Pale, else Very Pale), a parse
failure yields just the base and never an error, and the base comes from
substring tests on the uppercased code. -/
theorem C7_amended (entries : List MunsellEntry) (hasDesc : Bool) (code : String) :
    get_color_description ⟨some entries, hasDesc⟩ code =
      (match first_match entries code with
       | some e =>
         if hasDesc then e.description else generateDescriptionFromCode code
       | none => generateDescriptionFromCode code) ∧
    generateDescriptionFromCode code =
      (match parsedMunsellValue (toUpperPy code) with
       | some v => lightnessOfValue v ++ " " ++ baseOfCode (toUpperPy code)
       | none => baseOfCode (toUpperPy code)) ∧
    (∀ v : ℤ, lightnessOfValue v ≠ "") ∧
    (∀ v : ℤ, lightnessOfValue v =
      if v ≤ 2 then "Black"
      else if v ≤ 3 then "Very Dark"
      else if v ≤ 4 then "Dark"
      else if v ≤ 5 then "Medium"
      else if v ≤ 6 then "Light"
      else if v ≤ 7 then "Pale"
      else "Very Pale") := by
  have hlne : ∀ v : ℤ, lightnessOfValue v ≠ "" := by
    intro v
    simp only [lightnessOfValue]
    repeat' split
    all_goals decide
  refine ⟨rfl, ?_, hlne, fun v => rfl⟩
  cases hpv : parsedMunsellValue (toUpperPy code) with
  | none => simp [generateDescriptionFromCode, lightnessOfCode, hpv]
  | some v => simp [generateDescriptionFromCode, lightnessOfCode, hpv, hlne v]

/-- Witness for `C7_amended` on a concrete chart and code with a non-empty
description. -/
theorem C7_amended_witness :
    get_color_description ⟨some chartEx, true⟩ "5Y 6/2" =
      (match first_match chartEx "5Y 6/2" with
       | some e =>
         if true then e.description else generateDescriptionFromCode "5Y 6/2"
       | none => generateDescriptionFromCode "5Y 6/2") ∧
    (∀ v : ℤ, lightnessOfValue v ≠ "") :=
  ⟨(C7_amended chartEx true "5Y 6/2").1, (C7_amended chartEx true "5Y 6/2").2.2.1⟩

/-- A nonempty list is not `isEmpty`. -/
theorem isEmpty_false_of_ne_nil {α : Type} {l : List α} (h : l ≠ []) :
    l.isEmpty = false := by
  cases l with
  | nil => exact absurd rfl h
  | cons a t => rfl

/-- Every member of a label list is bounded by its `foldr max 0`. -/
theorem le_foldr_max (l : List ℕ) : ∀ x ∈ l, x ≤ l.foldr max 0 := by
  induction l with
  | nil => intro x hx; simp at hx
  | cons a t ih =>
    intro x hx
    rcases List.mem_cons.mp hx with h | h
    · subst h; exact le_max_left _ _
    · exact le_trans (ih x h) (le_max_right _ _)

/-- `np.unique` only returns values present in the label list. -/
theorem npUnique_sub (labels : List ℕ) : ∀ u ∈ npUnique labels, u ∈ labels := by
  intro u hu
  rw [npUnique, List.mem_filter] at hu
  simpa using hu.2

/-- `np.unique` of a nonempty label list is nonempty. -/
theorem npUnique_ne_nil (labels : List ℕ) (h : labels ≠ []) :
    npUnique labels ≠ [] := by
  obtain ⟨a, ha⟩ : ∃ a, a ∈ labels := List.exists_mem_of_ne_nil labels h
  intro hemp
  have hmem : a ∈ npUnique labels := by
    rw [npUnique, List.mem_filter]
    exact ⟨List.mem_range.mpr (Nat.lt_succ_of_le (le_foldr_max labels a ha)),
      by simpa using ha⟩
  rw [hemp] at hmem
  simp at hmem

/-- The argmax candidate is a member of the candidate list. -/
theorem argmaxFirst_mem (f : ℕ → ℕ) :
    ∀ (l : List ℕ) (u : ℕ), argmaxFirst f l = some u → u ∈ l := by
  intro l
  induction l with
  | nil => intro u h; simp [argmaxFirst] at h
  | cons x xs ih =>
    intro u h
    cases hx : argmaxFirst f xs with
    | none =>
      simp only [argmaxFirst, hx] at h
      rw [(Option.some.inj h).symm]
      exact List.mem_cons_self _ _
    | some y =>
      simp only [argmaxFirst, hx] at h
      by_cases hc : f x < f y
      · rw [if_pos hc] at h
        rw [(Option.some.inj h).symm]
        exact List.mem_cons_of_mem _ (ih y hx)
      · rw [if_neg hc] at h
        rw [(Option.some.inj h).symm]
        exact List.mem_cons_self _ _

/-- The argmax of a nonempty candidate list exists. -/
theorem argmaxFirst_isSome (f : ℕ → ℕ) :
    ∀ (l : List ℕ), l ≠ [] → ∃ u, argmaxFirst f l = some u := by
  intro l
  induction l with
  | nil => intro h; exact absurd rfl h
  | cons x xs _ =>
    intro _
    cases hx : argmaxFirst f xs with
    | none => exact ⟨x, by simp only [argmaxFirst, hx]⟩
    | some y =>
      by_cases hc : f x < f y
      · exact ⟨y, by simp only [argmaxFirst, hx]; rw [if_pos hc]⟩
      · exact ⟨x, by simp only [argmaxFirst, hx]; rw [if_neg hc]⟩

/-- The brightness re-filter never empties a nonempty sample list. -/
theorem brightnessRefilter_ne_nil (ps : List BGR) (h : ps ≠ []) :
    brightnessRefilter ps ≠ [] := by
  simp only [brightnessRefilter]
  split
  · split
    next h100 =>
      intro hh
      rw [hh] at h100
      simp at h100
    · exact h
  · exact h

/-- Selecting the most populous cluster succeeds whenever the label list is
nonempty and every label indexes the center list. -/
theorem dominantCenter_ok (labels : List ℕ) (centers : List BGR)
    (hlabne : labels ≠ []) (hbound : ∀ u ∈ labels, u < centers.length) :
    ∃ u c, argmaxFirst (fun v => labels.count v) (npUnique labels) = some u ∧
      centers.get? u = some c := by
  obtain ⟨u, hu⟩ := argmaxFirst_isSome (fun v => labels.count v) (npUnique labels)
    (npUnique_ne_nil _ hlabne)
  have humem := npUnique_sub _ _ (argmaxFirst_mem _ _ _ hu)
  exact ⟨u, _, hu, List.get?_eq_get (hbound u humem)⟩

/-- Dominant-color extraction is total: for any image, any cluster budget
`k ≥ 1`, and any clustering routine meeting the `cv2.kmeans` contract, it
returns a color and never an error. -/
theorem getDominantColorKmeans_ok (km : KmeansFn) (hkm : KmeansWF km)
    (image : List BGR) (k : ℕ) (hk : 1 ≤ k) :
    ∃ c, getDominantColorKmeans km image k = Except.ok c := by
  by_cases hemp : (image.filter soilSampleOK).isEmpty = true
  · exact ⟨(128, 128, 128), by simp only [getDominantColorKmeans]; rw [if_pos hemp]⟩
  · have hne : image.filter soilSampleOK ≠ [] := by
      intro hh
      rw [hh] at hemp
      exact hemp rfl
    have hne2 : brightnessRefilter (image.filter soilSampleOK) ≠ [] :=
      brightnessRefilter_ne_nil _ hne
    have hkk : 1 ≤ min k (brightnessRefilter (image.filter soilSampleOK)).length := by
      have h1 : 0 < (brightnessRefilter (image.filter soilSampleOK)).length :=
        List.length_pos.mpr hne2
      omega
    obtain ⟨hlab, hcent, hbound⟩ :=
      hkm (brightnessRefilter (image.filter soilSampleOK))
        (min k (brightnessRefilter (image.filter soilSampleOK)).length) hne2 hkk
    have hlabne : (km (brightnessRefilter (image.filter soilSampleOK))
        (min k (brightnessRefilter (image.filter soilSampleOK)).length)).1 ≠ [] := by
      intro hh
      rw [hh] at hlab
      exact hne2 (List.length_eq_zero.mp hlab.symm)
    obtain ⟨u, c, hu, hc⟩ := dominantCenter_ok
      (km (brightnessRefilter (image.filter soilSampleOK))
        (min k (brightnessRefilter (image.filter soilSampleOK)).length)).1
      (km (brightnessRefilter (image.filter soilSampleOK))
        (min k (brightnessRefilter (image.filter soilSampleOK)).length)).2
      hlabne (fun u hu => by rw [hcent]; exact hbound u hu)
    refine ⟨(pyInt c.r, pyInt c.g, pyInt c.b), ?_⟩
    simp only [getDominantColorKmeans]
    rw [if_neg hemp]
    simp only [hu, hc]

/-- Claim C9: dominant-color extraction keeps exactly the samples in which
every channel is greater than 15 and less than 240 and the channel mean is
less than 220, and whenever no samples survive this filtering it returns
the neutral-gray sentinel (128,128,128) instead of an error. -/
theorem C9_dominant_filter (km : KmeansFn) (image : List BGR) (k : ℕ) :
    (∀ p : BGR, p ∈ image.filter soilSampleOK ↔
      p ∈ image ∧ (15 < p.b ∧ 15 < p.g ∧ 15 < p.r) ∧
        (p.b < 240 ∧ p.g < 240 ∧ p.r < 240) ∧ (p.b + p.g + p.r) / 3 < 220) ∧
    (image.filter soilSampleOK = [] →
      getDominantColorKmeans km image k = Except.ok (128, 128, 128)) := by
  constructor
  · intro p
    rw [List.mem_filter]
    simp [soilSampleOK, and_assoc]
  · intro h
    simp only [getDominantColorKmeans, h]
    rfl

/-- Witness for `C9_dominant_filter`: a pure-black image is fully filtered
out and yields the sentinel. -/
theorem C9_dominant_filter_witness :
    ([blackPixel] : List BGR).filter soilSampleOK = [] ∧
    getDominantColorKmeans kmConst [blackPixel] 3 = Except.ok (128, 128, 128) :=
  ⟨by norm_num [soilSampleOK, blackPixel],
   (C9_dominant_filter kmConst [blackPixel] 3).2
     (by norm_num [soilSampleOK, blackPixel])⟩

/-- Pixel filtering preserves the pixel count (masked pixels are zeroed,
not removed). -/
theorem filterSoilPixels_length (hsvOf : BGR → HSV) (img : List BGR) :
    (filterSoilPixels hsvOf img).length = img.length := by
  rw [filterSoilPixels]
  split <;> simp

/-- White balancing preserves the pixel count. -/
theorem applyWhiteBalance_length (l : List BGR) :
    (applyWhiteBalance l).length = l.length := by
  rw [applyWhiteBalance]
  simp

/-- Claim C8: `analyze` returns "Unknown" when the image is null or has zero
size, and for every image argument it produces a result: no error escapes,
for any HSV conversion, any clustering routine meeting the `cv2.kmeans`
contract, and any analyzer whose loaded chart is nonempty. -/
theorem C8_analyze_total (hsvOf : BGR → HSV) (km : KmeansFn) (hkm : KmeansWF km)
    (a : ColorAnalyzer) (ha : ∀ es, a.munsell_df = some es → es ≠ [])
    (image : Option (List BGR)) (wb : Bool) :
    ((image = none ∨ image = some []) →
      analyze_color hsvOf km a image wb = Except.ok ("Unknown")) ∧
    (∃ s, analyze_color hsvOf km a image wb = Except.ok s) := by
  have hfn : ∀ rgb : ℤ × ℤ × ℤ, ∃ s,
      (match a.munsell_df with
       | some entries =>
         predictMunsell entries ((rgb.1 : ℚ), (rgb.2.1 : ℚ), (rgb.2.2 : ℚ))
       | none => Except.ok (fallbackColorDescription hsvOf rgb)) = Except.ok s := by
    intro rgb
    cases hdf : a.munsell_df with
    | none => exact ⟨_, rfl⟩
    | some entries =>
      obtain ⟨pre, e, post, _, hnear, _, _⟩ :=
        nearestEntry_spec ((rgb.1 : ℚ), (rgb.2.1 : ℚ), (rgb.2.2 : ℚ)) entries
          (ha entries hdf)
      exact ⟨e.munsell_name, by simp [predictMunsell, hnear]⟩
  constructor
  · rintro (rfl | rfl)
    · rfl
    · rfl
  · cases image with
    | none => exact ⟨"Unknown", rfl⟩
    | some img =>
      by_cases hempty : img.isEmpty = true
      · refine ⟨"Unknown", ?_⟩
        simp only [analyze_color]
        rw [if_pos hempty]
      · have himgne : img ≠ [] := by
          intro hh
          rw [hh] at hempty
          exact hempty rfl
        have hf2len : (if wb && !(filterSoilPixels hsvOf img).isEmpty
            then applyWhiteBalance (filterSoilPixels hsvOf img)
            else filterSoilPixels hsvOf img).length = img.length := by
          split
          · rw [applyWhiteBalance_length, filterSoilPixels_length]
          · exact filterSoilPixels_length hsvOf img
        have hf2ne : (if wb && !(filterSoilPixels hsvOf img).isEmpty
            then applyWhiteBalance (filterSoilPixels hsvOf img)
            else filterSoilPixels hsvOf img) ≠ [] := by
          intro hh
          rw [hh] at hf2len
          exact himgne (List.length_eq_zero.mp hf2len.symm)
        obtain ⟨rgb1, hrgb1⟩ := getDominantColorKmeans_ok km hkm
          (if wb && !(filterSoilPixels hsvOf img).isEmpty
           then applyWhiteBalance (filterSoilPixels hsvOf img)
           else filterSoilPixels hsvOf img) 3 (by norm_num)
        obtain ⟨s, hs⟩ := hfn rgb1
        refine ⟨s, ?_⟩
        simp only [analyze_color]
        rw [if_neg hempty]
        rw [isEmpty_false_of_ne_nil hf2ne]
        simp only [Bool.not_false, if_true]
        rw [hrgb1]
        exact hs

/-- The stub clustering routine meets the `cv2.kmeans` contract. -/
theorem kmConst_wf : KmeansWF kmConst := by
  intro ps k hps hk
  refine ⟨by simp [kmConst], by simp [kmConst], ?_⟩
  intro u hu
  simp only [kmConst] at hu
  obtain ⟨x, _, he⟩ := List.mem_map.mp hu
  omega

/-- Witness for `C8_analyze_total`: a concrete chartless analyzer, a
one-pixel image and the stub clustering routine. -/
theorem C8_analyze_total_witness :
    KmeansWF kmConst ∧
    (∀ es, (ColorAnalyzer.mk none false).munsell_df = some es → es ≠ []) ∧
    (∃ s, analyze_color hsvId kmConst (ColorAnalyzer.mk none false)
      (some [⟨100, 100, 100⟩]) true = Except.ok s) :=
  ⟨kmConst_wf,
   fun es h => by simp at h,
   (C8_analyze_total hsvId kmConst kmConst_wf
     (ColorAnalyzer.mk none false) (fun es h => by simp at h)
     (some [⟨100, 100, 100⟩]) true).2⟩

/-- Claim C10: `get_calibration_info` never divides by zero: its
`cm_per_pixel` field is the exact inverse of `pixel_cm_ratio` when the ratio
is positive (their product is 1) and is 0 when the ratio is non-positive. -/
theorem C10_calibration_info (c : DepthCalibrator) :
    ((get_calibration_info c).2.2 =
      if 0 < c.pixel_cm_ratio then 1 / c.pixel_cm_ratio else 0) ∧
    (0 < c.pixel_cm_ratio →
      (get_calibration_info c).2.2 * c.pixel_cm_ratio = 1) ∧
    (c.pixel_cm_ratio ≤ 0 → (get_calibration_info c).2.2 = 0) := by
  refine ⟨rfl, ?_, ?_⟩
  · intro h
    simp only [get_calibration_info, if_pos h]
    exact one_div_mul_cancel (ne_of_gt h)
  · intro h
    simp [get_calibration_info, not_lt.mpr h]

/-- Witness for `C10_calibration_info` on a calibrator with ratio 10. -/
theorem C10_calibration_info_witness :
    (0 : ℚ) < (DepthCalibrator.mk 10 []).pixel_cm_ratio ∧
    (get_calibration_info (DepthCalibrator.mk 10 [])).2.2 *
      (DepthCalibrator.mk 10 []).pixel_cm_ratio = 1 :=
  ⟨by norm_num, (C10_calibration_info (DepthCalibrator.mk 10 [])).2.1 (by norm_num)⟩
example : (calibRun 10 [((0 : ℤ), (0 : ℚ)), (100, 10)]).pixel_cm_ratio = 10 := by
  norm_num [calibRun, calibStep, addReferencePoint, recalculateRatio, sortByPixel,
    List.insertionSort, List.orderedInsert, pixelLE, slopes, listMean]
example : getDepthAtPixel (calibRun 10 [((0 : ℤ), (0 : ℚ)), (100, 10)]) 50 = 5 := by
  norm_num [calibRun, calibStep, addReferencePoint, recalculateRatio, sortByPixel,
    List.insertionSort, List.orderedInsert, pixelLE, slopes, listMean, getDepthAtPixel]
example : (calibRun 10 [((0 : ℤ), (0 : ℚ)), (100, -10)]).pixel_cm_ratio = -10 := by
  norm_num [calibRun, calibStep, addReferencePoint, recalculateRatio, sortByPixel,
    List.insertionSort, List.orderedInsert, pixelLE, slopes, listMean]
example : get_depth_zones 40 4 =
    [("Surface", 0, 10), ("Shallow", 10, 20), ("Medium", 20, 30), ("Deep", 30, 40)] := by
  norm_num [get_depth_zones, pyRound1, pyRoundHalfEvenZ, List.range_succ, defaultZoneNames]
example : get_depth_zones (1/25) 1 = [("Surface", 0, 0)] := by
  norm_num [get_depth_zones, pyRound1, pyRoundHalfEvenZ, List.range_succ, defaultZoneNames]
